import Mathlib

/-!
Verification development for `wox.core/ai/provider_groq.go` of the Wox
repository: the Groq AI provider — tool-schema conversion, conversation
mapping, model-catalog fetching, and the bounded streaming bridge between
the background generation task and `Receive`.

Modelling conventions:
* Go byte strings are modelled as `List Nat`; Go `(value, error)` returns
  become `Except` values or explicit pairs with an `Option` error.
* Third-party dependencies that are not part of the repository (the
  djherbis buffer/nio pipe, gjson, the langchaingo client and types) are
  modelled from the specification and from their documented behaviour; each
  such definition says so in its doc comment.

The file has all definitions first, followed by all theorems.
-/

namespace Groq

/-- Role tag of a langchaingo message (`llms.ChatMessageType`), as used by
`convertConversations`. -/
inductive ChatMessageType where
  | human
  | ai
  | system
  | generic
  | function
  | tool
  deriving DecidableEq

/-- A backend chat message (`llms.MessageContent`), restricted to the text
parts this file produces. -/
structure MessageContent where
  role : ChatMessageType
  parts : List String
  deriving DecidableEq

/-- `llms.TextParts role text`: a message with a single text part. -/
def TextParts (role : ChatMessageType) (text : String) : MessageContent :=
  { role := role, parts := [text] }

/-- `common.Conversation`, restricted to the fields `provider_groq.go`
reads. -/
structure Conversation where
  role : String
  text : String
  deriving DecidableEq

/-- Modelled from the spec: the role constant `common.ConversationRoleUser`
(the `common` package is not under `src/`; only distinctness from the
assistant role matters). -/
def ConversationRoleUser : String := "user"

/-- Modelled from the spec: the role constant `common.ConversationRoleAI`,
the assistant role (the `common` package is not under `src/`). -/
def ConversationRoleAI : String := "ai"

/-- The loop body of `GroqProvider.convertConversations`: append a human
message when the role is user, an assistant message when the role is
assistant; the two conditions are checked independently, exactly as the two
`if` statements in the source. -/
def convStep (chatMessages : List MessageContent) (conversation : Conversation) :
    List MessageContent :=
  let chatMessages :=
    if conversation.role = ConversationRoleUser then
      chatMessages ++ [TextParts ChatMessageType.human conversation.text]
    else chatMessages
  if conversation.role = ConversationRoleAI then
    chatMessages ++ [TextParts ChatMessageType.ai conversation.text]
  else chatMessages

/-- `GroqProvider.convertConversations`: fold the loop body over the ordered
conversation, starting from the empty message list. -/
def convertConversations (conversations : List Conversation) : List MessageContent :=
  conversations.foldl convStep []

/-- The per-turn mapping stated by the spec: a user turn becomes a human
message, an assistant turn becomes an assistant message, every other role is
skipped. -/
def mapTurn (c : Conversation) : Option MessageContent :=
  if c.role = ConversationRoleUser then some (TextParts ChatMessageType.human c.text)
  else if c.role = ConversationRoleAI then some (TextParts ChatMessageType.ai c.text)
  else none

/-- `jsonschema.DataType` of the langchaingo jsonschema package (not under
`src/`; the constructors are the JSON-schema primitive type names). -/
inductive SchemaType where
  | object
  | string
  | array
  | number
  | integer
  | boolean
  | null
  deriving DecidableEq

/-- `jsonschema.Definition`, restricted to the fields `convertTools` sets:
type, description, properties (a Go map, modelled as an association list in
source order), items, and required. -/
inductive Definition where
  | mk (type : SchemaType) (description : String)
      (properties : List (String × Definition)) (items : Option Definition)
      (required : List String)

/-- The `Type` field of a schema definition. -/
def Definition.type : Definition → SchemaType
  | Definition.mk t _ _ _ _ => t

/-- The `Description` field of a schema definition. -/
def Definition.description : Definition → String
  | Definition.mk _ d _ _ _ => d

/-- The `Properties` field of a schema definition. -/
def Definition.properties : Definition → List (String × Definition)
  | Definition.mk _ _ p _ _ => p

/-- The `Items` field of a schema definition. -/
def Definition.items : Definition → Option Definition
  | Definition.mk _ _ _ i _ => i

/-- The `Required` field of a schema definition. -/
def Definition.required : Definition → List String
  | Definition.mk _ _ _ _ r => r

/-- `llms.FunctionDefinition` (langchaingo), restricted to the fields set by
`convertTools`. -/
structure FunctionDefinition where
  name : String
  description : String
  parameters : Definition

/-- `llms.Tool` (langchaingo): a type tag plus a function definition (the
source always populates the function pointer). -/
structure Tool where
  type : String
  function : FunctionDefinition

/-- `common.MCPTool`, restricted to the fields `convertTools` reads. -/
structure MCPTool where
  name : String
  description : String

/-- `GroqProvider.convertTools`: every abstract tool becomes a `function`
tool whose parameter schema is the fixed object with exactly the two
required properties `rationale` and `suggestions`, independent of the
tool. -/
def convertTools (tools : List MCPTool) : List Tool :=
  tools.map fun tool =>
    { type := "function"
      function :=
        { name := tool.name
          description := tool.description
          parameters :=
            Definition.mk SchemaType.object ""
              [("rationale",
                  Definition.mk SchemaType.string
                    "The rationale for choosing this function call with these parameters"
                    [] none []),
               ("suggestions",
                  Definition.mk SchemaType.array "" []
                    (some (Definition.mk SchemaType.string "A suggested prompt" [] none []))
                    [])]
              none
              ["rationale", "suggestions"] } }

/-- The schema object the spec prescribes for one converted tool; compared
against `convertTools` in claim C3. -/
def expectedGroqTool (tool : MCPTool) : Tool :=
  { type := "function"
    function :=
      { name := tool.name
        description := tool.description
        parameters :=
          Definition.mk SchemaType.object ""
            [("rationale",
                Definition.mk SchemaType.string
                  "The rationale for choosing this function call with these parameters"
                  [] none []),
             ("suggestions",
                Definition.mk SchemaType.array "" []
                  (some (Definition.mk SchemaType.string "A suggested prompt" [] none []))
                  [])]
            none
            ["rationale", "suggestions"] } }

/-- A parsed JSON document: the shape the gjson queries in
`GroqProvider.Models` operate on. -/
inductive Json where
  | null
  | bool (b : Bool)
  | num (n : Int)
  | str (s : String)
  | arr (elems : List Json)
  | obj (fields : List (String × Json))

/-- gjson `Result.Get(key)` for a single object key: the first field with
that name; `none` when the value is not an object or has no such field
(gjson: the result does not exist). Modelled from gjson's documented
behaviour (the gjson dependency is not under `src/`). -/
def Json.get : Json → String → Option Json
  | Json.obj fields, key => (fields.find? (fun f => f.fst == key)).map Prod.snd
  | _, _ => none

/-- gjson `Result.Bool()`: booleans as themselves, numbers by `≠ 0`, strings
by a lenient lowercase parse, and `false` for everything else, including a
missing value. Modelled from gjson's documented behaviour. -/
def gjsonBool : Option Json → Bool
  | some (Json.bool b) => b
  | some (Json.num n) => n != 0
  | some (Json.str s) => s.toLower == "1" || s.toLower == "t" || s.toLower == "true"
  | _ => false

/-- gjson `Result.String()`: the string itself, `"true"`/`"false"` for
booleans, the printed number for numbers, and `""` for a missing value or
null; for composite values gjson returns the raw JSON text, which this model
abbreviates to `""` (the repository's documented response shape has string
`id` fields). Modelled from gjson's documented behaviour. -/
def gjsonString : Option Json → String
  | some (Json.str s) => s
  | some (Json.bool true) => "true"
  | some (Json.bool false) => "false"
  | some (Json.num n) => toString n
  | _ => ""

/-- gjson `Result.ForEach`, value sequence: the elements of an array, the
field values of an object, a single iteration on any other existing value,
nothing when the value is missing. Modelled from gjson's documented
behaviour. -/
def gjsonForEachValues : Option Json → List Json
  | none => []
  | some (Json.arr elems) => elems
  | some (Json.obj fields) => fields.map Prod.snd
  | some j => [j]

/-- `common.Model`: identifier plus owning provider tag. -/
structure Model where
  name : String
  provider : String
  deriving DecidableEq

/-- Modelled from the spec: the provider tag `common.ProviderNameGroq` (the
`common` package is not under `src/`). -/
def ProviderNameGroq : String := "groq"

/-- The body of the `ForEach` callback in `GroqProvider.Models`: append a
model named by the entry's `id` field when its `active` field is gjson-true,
keep the accumulator unchanged otherwise. -/
def modelsStep (models : List Model) (value : Json) : List Model :=
  if gjsonBool (value.get "active") then
    models ++ [{ name := gjsonString (value.get "id"), provider := ProviderNameGroq }]
  else models

/-- `GroqProvider.Models`, parameterised by the result of the authenticated
GET (`util.HttpGetWithHeaders`, not under `src/`): a transport failure is
returned as-is; otherwise the `data` key of the body is iterated with gjson
and the active entries are collected. The success branch ends in
`return models, nil` — it returns no error whatever the body's shape. -/
def Models (fetched : Except String Json) : Except String (List Model) :=
  match fetched with
  | Except.error e => Except.error e
  | Except.ok body =>
      Except.ok ((gjsonForEachValues (body.get "data")).foldl modelsStep [])

/-- Bridge capacity: `buffer.New(4 * 1024)` — the 4KB in-memory buffer. -/
def pipeCapacity : Nat := 4 * 1024

/-- Size of Receive's read buffer: `make([]byte, 2048)`. -/
def recvBufSize : Nat := 2048

/-- An error an `io.Reader` read can report: end of stream (`io.EOF`) or a
generation error stored by `CloseWithError`, carried by its message. -/
inductive ReadErr where
  | eof
  | wrapped (msg : String)
  deriving DecidableEq

/-- State of the Streaming Bridge. Modelled from the spec (the djherbis
buffer/nio pipe is a dependency, not under `src/`): the FIFO of unread
bytes, whether the producer side has closed, and the error it closed with
(`none` after a normal close). -/
structure PipeState where
  buffered : List Nat
  closed : Bool
  closeErr : Option String
  deriving DecidableEq

/-- The bridge as `ChatStream` creates it: empty and open. -/
def initPipe : PipeState := { buffered := [], closed := false, closeErr := none }

/-- A raw Go `Read` outcome: the bytes delivered and an optional error. -/
structure GoReadResult where
  bytes : List Nat
  err : Option ReadErr
  deriving DecidableEq

/-- Modelled from the spec: one blocking read of at most `maxBytes` bytes
from the pipe's read side. Buffered bytes are delivered first, in FIFO
order; on an empty closed pipe the read reports `io.EOF` after a normal
close or the stored error after `CloseWithError`; on an empty open pipe the
read blocks, modelled as `none`. -/
def pipeRead (st : PipeState) (maxBytes : Nat) : Option (GoReadResult × PipeState) :=
  if st.buffered = [] then
    if st.closed then
      match st.closeErr with
      | none => some ({ bytes := [], err := some ReadErr.eof }, st)
      | some msg => some ({ bytes := [], err := some (ReadErr.wrapped msg) }, st)
    else none
  else
    some ({ bytes := st.buffered.take maxBytes, err := none },
      { st with buffered := st.buffered.drop maxBytes })

/-- The error/data handling inside `GroqProviderStream.Receive`: when the
read reports any error the returned chunk is the empty string, so bytes
delivered alongside an error are discarded; `io.EOF` is passed through as
`io.EOF`; otherwise the delivered bytes are returned with no error. -/
def receiveStep (r : GoReadResult) : List Nat × Option ReadErr :=
  match r.err with
  | some e => if e = ReadErr.eof then ([], some ReadErr.eof) else ([], some e)
  | none => (r.bytes, none)

/-- What one `Receive` call reports to the caller: a data chunk with no
error, end of stream, or a terminal error. -/
inductive RecvOut where
  | chunk (bytes : List Nat)
  | eofEnd
  | errEnd (msg : String)
  deriving DecidableEq

/-- Classification of Receive's `(chunk, error)` pair into the three
outcomes the contract distinguishes. -/
def classify : List Nat × Option ReadErr → RecvOut
  | (bs, none) => RecvOut.chunk bs
  | (_, some ReadErr.eof) => RecvOut.eofEnd
  | (_, some (ReadErr.wrapped msg)) => RecvOut.errEnd msg

/-- `GroqProviderStream.Receive`: one blocking read of up to 2048 bytes,
passed through `receiveStep`; `none` when the call would block. -/
def receive (st : PipeState) : Option (RecvOut × PipeState) :=
  match pipeRead st recvBufSize with
  | none => none
  | some (r, st') => some (classify (receiveStep r), st')

/-- One observable interaction with the Streaming Bridge. -/
inductive Event where
  | write (chunk : List Nat)
  | close (closeErr : Option String)
  | recv (out : RecvOut)
  deriving DecidableEq

/-- Modelled from the spec: the bridge's small-step behaviour. A producer
write appends to the FIFO and is enabled only while the result fits under
the 4096-byte bound — a write that would overfill blocks instead, and a
long logical write proceeds as a sequence of partial writes. The producer
closes exactly once, recording the optional error. A consumer step is one
non-blocking `receive`. -/
inductive Step : PipeState → Event → PipeState → Prop where
  | write (st : PipeState) (chunk : List Nat) :
      chunk ≠ [] → st.closed = false →
      st.buffered.length + chunk.length ≤ pipeCapacity →
      Step st (Event.write chunk) { st with buffered := st.buffered ++ chunk }
  | close (st : PipeState) (e : Option String) :
      st.closed = false →
      Step st (Event.close e) { st with closed := true, closeErr := e }
  | recv (st st' : PipeState) (out : RecvOut) :
      receive st = some (out, st') →
      Step st (Event.recv out) st'

/-- Finitely many bridge steps, recording the trace of events. -/
inductive Steps : PipeState → List Event → PipeState → Prop where
  | nil (st : PipeState) : Steps st [] st
  | cons {st st' st'' : PipeState} {ev : Event} {tr : List Event} :
      Step st ev st' → Steps st' tr st'' → Steps st (ev :: tr) st''

/-- All bytes the producer wrote in a trace, in order. -/
def writtenOf : List Event → List Nat
  | [] => []
  | Event.write c :: tr => c ++ writtenOf tr
  | _ :: tr => writtenOf tr

/-- All bytes the consumer received in a trace, in order. -/
def recvDataOf : List Event → List Nat
  | [] => []
  | Event.recv (RecvOut.chunk c) :: tr => c ++ recvDataOf tr
  | _ :: tr => recvDataOf tr

/-- The close events of a trace, in order. -/
def closesOf : List Event → List (Option String)
  | [] => []
  | Event.close e :: tr => e :: closesOf tr
  | _ :: tr => closesOf tr

/-- The langchaingo openai client; kept abstract here beyond construction
success or failure. -/
structure OpenAIClient where
  dummy : Unit

/-- `common.ChatOptions`, restricted to the field `ChatStream` reads. -/
structure ChatOptions where
  tools : List MCPTool

/-- `GroqProviderStream`: the handle `ChatStream` returns, holding the
conversations and the read side of the bridge. -/
structure GroqProviderStream where
  conversations : List Conversation
  reader : PipeState

/-- Outcome of a successful `ChatStream` call: the handle returned to the
caller together with the background generation task's request payload (the
mapped conversations and converted tools) writing into the fresh bridge. -/
structure StartedStream where
  stream : GroqProviderStream
  taskMessages : List MessageContent
  taskTools : List Tool

/-- `GroqProvider.ChatStream`, parameterised by the result of `openai.New`
(the langchaingo constructor, not under `src/`): on construction failure
the error is returned synchronously and nothing else happens — no bridge,
no background task; on success a fresh 4096-byte bridge is created, the
background task is started with the mapped conversations and converted
tools, and the handle is returned immediately. -/
def chatStream (newClient : Except String OpenAIClient)
    (conversations : List Conversation) (options : ChatOptions) :
    Except String StartedStream :=
  match newClient with
  | Except.error clientErr => Except.error clientErr
  | Except.ok _ =>
      Except.ok
        { stream := { conversations := conversations, reader := initPipe }
          taskMessages := convertConversations conversations
          taskTools := convertTools options.tools }

end Groq

namespace Groq

theorem user_ne_ai : ConversationRoleUser ≠ ConversationRoleAI := by decide

theorem ai_ne_user : ConversationRoleAI ≠ ConversationRoleUser := by decide

theorem convStep_foldl (cs : List Conversation) :
    ∀ acc : List MessageContent,
      cs.foldl convStep acc = acc ++ cs.filterMap mapTurn := by
  induction cs with
  | nil => intro acc; simp
  | cons c cs ih =>
      intro acc
      by_cases hu : c.role = ConversationRoleUser
      · have ha : ¬ c.role = ConversationRoleAI := by
          rw [hu]; exact user_ne_ai
        simp [convStep, mapTurn, List.filterMap_cons, hu, ha, user_ne_ai, ih]
      · by_cases ha : c.role = ConversationRoleAI
        · simp [convStep, mapTurn, List.filterMap_cons, hu, ha, ai_ne_user, ih]
        · simp [convStep, mapTurn, List.filterMap_cons, hu, ha, ih]

theorem length_filterMap_mapTurn (cs : List Conversation) :
    (cs.filterMap mapTurn).length =
      cs.countP (fun c =>
        c.role == ConversationRoleUser || c.role == ConversationRoleAI) := by
  induction cs with
  | nil => rfl
  | cons c cs ih =>
      by_cases hu : c.role = ConversationRoleUser
      · simp [mapTurn, List.filterMap_cons, hu, ih, List.countP_cons]
      · by_cases ha : c.role = ConversationRoleAI
        · simp [mapTurn, List.filterMap_cons, hu, ha, ai_ne_user, ih, List.countP_cons]
        · simp [mapTurn, List.filterMap_cons, hu, ha, ih, List.countP_cons]

/-- C4: the Conversation Mapper appends a human message for every user turn
and an assistant message for every assistant turn, silently skips every turn
with any other role (no error, no placeholder — the output is exactly the
order-preserving `filterMap` of the per-turn mapping), and its output length
is the number of turns whose role is user or assistant. -/
theorem c4_conversation_mapper (conversations : List Conversation) :
    convertConversations conversations = conversations.filterMap mapTurn ∧
    (convertConversations conversations).length =
      conversations.countP (fun c =>
        c.role == ConversationRoleUser || c.role == ConversationRoleAI) := by
  refine ⟨?_, ?_⟩
  · simpa using convStep_foldl conversations []
  · rw [convertConversations, convStep_foldl conversations []]
    simpa using length_filterMap_mapTurn conversations

/-- C3: the Schema Converter turns N tools into exactly N schema objects,
positionally: the i-th output is the expected schema of the i-th input,
whose shape is `function`-typed, carries the tool's name and description,
and whose parameter object has exactly the two properties `rationale`
(a string) and `suggestions` (an array of strings), with required equal to
`["rationale", "suggestions"]`, the same for every tool. -/
theorem c3_schema_converter (tools : List MCPTool) :
    (convertTools tools).length = tools.length ∧
    (∀ i : Nat, (convertTools tools)[i]? = (tools[i]?).map expectedGroqTool) ∧
    ∀ tool : MCPTool,
      (expectedGroqTool tool).type = "function" ∧
      (expectedGroqTool tool).function.name = tool.name ∧
      (expectedGroqTool tool).function.description = tool.description ∧
      (expectedGroqTool tool).function.parameters.type = SchemaType.object ∧
      ((expectedGroqTool tool).function.parameters.properties).map Prod.fst =
        ["rationale", "suggestions"] ∧
      (∃ d, ((expectedGroqTool tool).function.parameters.properties).lookup "rationale" =
          some d ∧ d.type = SchemaType.string) ∧
      (∃ d di,
        ((expectedGroqTool tool).function.parameters.properties).lookup "suggestions" =
          some d ∧ d.type = SchemaType.array ∧ d.items = some di ∧
          di.type = SchemaType.string) ∧
      (expectedGroqTool tool).function.parameters.required = ["rationale", "suggestions"] := by
  refine ⟨by simp [convertTools], ?_, ?_⟩
  · intro i
    show (tools.map expectedGroqTool)[i]? = (tools[i]?).map expectedGroqTool
    simp
  · intro tool
    exact ⟨rfl, rfl, rfl, rfl, rfl, ⟨_, rfl, rfl⟩, ⟨_, _, rfl, rfl, rfl, rfl⟩, rfl⟩

theorem modelsStep_foldl (l : List Json) :
    ∀ acc : List Model,
      l.foldl modelsStep acc =
        acc ++ (l.filter (fun v => gjsonBool (v.get "active"))).map
          (fun v => { name := gjsonString (v.get "id"), provider := ProviderNameGroq }) := by
  induction l with
  | nil => intro acc; simp
  | cons v l ih =>
      intro acc
      cases hb : gjsonBool (v.get "active") with
      | true => simp [modelsStep, hb, List.filter_cons, ih]
      | false => simp [modelsStep, hb, List.filter_cons, ih]

/-- C5: for a well-shaped listing body (a `data` key holding an array),
`Models` returns exactly the active entries — never an inactive one — in
response order, each mapped by its `id` field and tagged with the Groq
provider. -/
theorem c5_models_active (body : Json) (entries : List Json)
    (hdata : body.get "data" = some (Json.arr entries)) :
    Models (Except.ok body) = Except.ok
      ((entries.filter (fun v => gjsonBool (v.get "active"))).map
        (fun v => { name := gjsonString (v.get "id"), provider := ProviderNameGroq })) := by
  rw [Models, hdata]
  rw [show gjsonForEachValues (some (Json.arr entries)) = entries from rfl]
  rw [modelsStep_foldl entries []]
  rfl

/-- Witness for C5 on the spec's fixture shape: of two entries exactly the
active one is returned, mapped by `id`. -/
theorem c5_models_active_witness :
    Models (Except.ok (Json.obj [("data", Json.arr
        [Json.obj [("id", Json.str "m1"), ("active", Json.bool true)],
         Json.obj [("id", Json.str "m2"), ("active", Json.bool false)]])]))
      = Except.ok [{ name := "m1", provider := ProviderNameGroq }] :=
  (c5_models_active
    (Json.obj [("data", Json.arr
      [Json.obj [("id", Json.str "m1"), ("active", Json.bool true)],
       Json.obj [("id", Json.str "m2"), ("active", Json.bool false)]])])
    [Json.obj [("id", Json.str "m1"), ("active", Json.bool true)],
     Json.obj [("id", Json.str "m2"), ("active", Json.bool false)]] rfl).trans rfl

/-- C6 counterexample: a successful transport whose body lacks the expected
`data` array (a shape-level parse failure) makes `Models` return a
successful empty list, not an error — refuting the claim that every parse
failure is returned as an error. -/
theorem c6_counterexample : Models (Except.ok (Json.obj [])) = Except.ok [] := rfl

/-- C6 amended: a transport failure is returned as an error with no model
list; a body without the expected shape (no `data` value) yields an empty
successful result with no error — parse failures are not reported. -/
theorem c6_amended_models_errors :
    (∀ e : String, Models (Except.error e) = Except.error e) ∧
    (∀ body : Json, body.get "data" = none → Models (Except.ok body) = Except.ok []) := by
  refine ⟨fun e => rfl, fun body h => ?_⟩
  rw [Models, h]
  rfl

/-- Witness for the amended C6 at concrete inputs. -/
theorem c6_amended_models_errors_witness :
    Models (Except.error "connection refused") = Except.error "connection refused" ∧
    Models (Except.ok Json.null) = Except.ok [] :=
  ⟨c6_amended_models_errors.1 "connection refused",
   c6_amended_models_errors.2 Json.null rfl⟩

/-- C7: when building the backend client fails, `ChatStream` returns that
error synchronously; the `Except.error` result carries no stream handle and
records no started background task and no bridge. -/
theorem c7_chatstream_construction_error (newClient : Except String OpenAIClient)
    (conversations : List Conversation) (options : ChatOptions) (e : String)
    (h : newClient = Except.error e) :
    chatStream newClient conversations options = Except.error e := by
  rw [h]; rfl

/-- Witness for C7 at a concrete failed construction. -/
theorem c7_chatstream_construction_error_witness :
    chatStream (Except.error "invalid base url") [] { tools := [] } =
      Except.error "invalid base url" :=
  c7_chatstream_construction_error _ [] { tools := [] } "invalid base url" rfl

/-- C10: whenever the underlying read reports an error, `Receive` returns
the empty chunk together with that error (`io.EOF` passed through), so
bytes delivered alongside an error are discarded and a non-empty chunk is
never paired with a non-nil error. -/
theorem c10_receive_discards_on_error (r : GoReadResult) (e : ReadErr)
    (h : r.err = some e) :
    (receiveStep r).fst = [] ∧ (receiveStep r).snd = some e := by
  cases r with
  | mk bytes err =>
      cases h
      by_cases he : e = ReadErr.eof
      · subst he; simp [receiveStep]
      · simp [receiveStep, he]

/-- Witness for C10: a read that delivers bytes alongside an error has those
bytes discarded. -/
theorem c10_receive_discards_on_error_witness :
    (receiveStep { bytes := [1, 2], err := some (ReadErr.wrapped "boom") }).fst = [] ∧
    (receiveStep { bytes := [1, 2], err := some (ReadErr.wrapped "boom") }).snd
      = some (ReadErr.wrapped "boom") :=
  c10_receive_discards_on_error _ (ReadErr.wrapped "boom") rfl

theorem receive_of_nonempty (st : PipeState) (h : ¬ st.buffered = []) :
    receive st = some (RecvOut.chunk (st.buffered.take recvBufSize),
      { st with buffered := st.buffered.drop recvBufSize }) := by
  simp [receive, pipeRead, h, receiveStep, classify]

theorem receive_closed_empty_none (st : PipeState) (hb : st.buffered = [])
    (hc : st.closed = true) (he : st.closeErr = none) :
    receive st = some (RecvOut.eofEnd, st) := by
  simp [receive, pipeRead, hb, hc, he, receiveStep, classify]

theorem receive_closed_empty_some (st : PipeState) (msg : String)
    (hb : st.buffered = []) (hc : st.closed = true) (he : st.closeErr = some msg) :
    receive st = some (RecvOut.errEnd msg, st) := by
  simp [receive, pipeRead, hb, hc, he, receiveStep, classify]

theorem receive_open_empty (st : PipeState) (hb : st.buffered = [])
    (hc : st.closed = false) : receive st = none := by
  simp [receive, pipeRead, hb, hc]

theorem receive_chunk_inv {st st' : PipeState} {c : List Nat}
    (h : receive st = some (RecvOut.chunk c, st')) :
    ¬ st.buffered = [] ∧ c = st.buffered.take recvBufSize ∧
    st' = { st with buffered := st.buffered.drop recvBufSize } := by
  by_cases hb : st.buffered = []
  · cases hc : st.closed with
    | false => rw [receive_open_empty st hb hc] at h; cases h
    | true =>
        cases he : st.closeErr with
        | none => rw [receive_closed_empty_none st hb hc he] at h; simp at h
        | some m => rw [receive_closed_empty_some st m hb hc he] at h; simp at h
  · rw [receive_of_nonempty st hb] at h
    simp only [Option.some.injEq, Prod.mk.injEq, RecvOut.chunk.injEq] at h
    exact ⟨hb, h.1.symm, h.2.symm⟩

theorem receive_eofEnd_inv {st st' : PipeState}
    (h : receive st = some (RecvOut.eofEnd, st')) :
    st.buffered = [] ∧ st.closed = true ∧ st.closeErr = none ∧ st' = st := by
  by_cases hb : st.buffered = []
  · cases hc : st.closed with
    | false => rw [receive_open_empty st hb hc] at h; cases h
    | true =>
        cases he : st.closeErr with
        | none =>
            rw [receive_closed_empty_none st hb hc he] at h
            simp only [Option.some.injEq, Prod.mk.injEq] at h
            exact ⟨hb, rfl, rfl, h.2.symm⟩
        | some m => rw [receive_closed_empty_some st m hb hc he] at h; simp at h
  · rw [receive_of_nonempty st hb] at h; simp at h

theorem receive_errEnd_inv {st st' : PipeState} {msg : String}
    (h : receive st = some (RecvOut.errEnd msg, st')) :
    st.buffered = [] ∧ st.closed = true ∧ st.closeErr = some msg ∧ st' = st := by
  by_cases hb : st.buffered = []
  · cases hc : st.closed with
    | false => rw [receive_open_empty st hb hc] at h; cases h
    | true =>
        cases he : st.closeErr with
        | none => rw [receive_closed_empty_none st hb hc he] at h; simp at h
        | some m =>
            rw [receive_closed_empty_some st m hb hc he] at h
            simp only [Option.some.injEq, Prod.mk.injEq, RecvOut.errEnd.injEq] at h
            exact ⟨hb, rfl, by rw [h.1], h.2.symm⟩
  · rw [receive_of_nonempty st hb] at h; simp at h

theorem receive_preserves {st st' : PipeState} {out : RecvOut}
    (h : receive st = some (out, st')) :
    st'.closed = st.closed ∧ st'.closeErr = st.closeErr := by
  cases out with
  | chunk c =>
      obtain ⟨-, -, h3⟩ := receive_chunk_inv h
      rw [h3]; exact ⟨rfl, rfl⟩
  | eofEnd =>
      obtain ⟨-, -, -, h4⟩ := receive_eofEnd_inv h
      rw [h4]; exact ⟨rfl, rfl⟩
  | errEnd m =>
      obtain ⟨-, -, -, h4⟩ := receive_errEnd_inv h
      rw [h4]; exact ⟨rfl, rfl⟩

theorem receive_buffered_le {st st' : PipeState} {out : RecvOut}
    (h : receive st = some (out, st')) :
    st'.buffered.length ≤ st.buffered.length := by
  cases out with
  | chunk c =>
      obtain ⟨-, -, h3⟩ := receive_chunk_inv h
      rw [h3]
      simp
  | eofEnd =>
      obtain ⟨-, -, -, h4⟩ := receive_eofEnd_inv h
      rw [h4]
  | errEnd m =>
      obtain ⟨-, -, -, h4⟩ := receive_errEnd_inv h
      rw [h4]

theorem writtenOf_cons_write (c : List Nat) (tr : List Event) :
    writtenOf (Event.write c :: tr) = c ++ writtenOf tr := rfl

theorem writtenOf_cons_close (e : Option String) (tr : List Event) :
    writtenOf (Event.close e :: tr) = writtenOf tr := rfl

theorem writtenOf_cons_recv (o : RecvOut) (tr : List Event) :
    writtenOf (Event.recv o :: tr) = writtenOf tr := rfl

theorem recvDataOf_cons_write (c : List Nat) (tr : List Event) :
    recvDataOf (Event.write c :: tr) = recvDataOf tr := rfl

theorem recvDataOf_cons_close (e : Option String) (tr : List Event) :
    recvDataOf (Event.close e :: tr) = recvDataOf tr := rfl

theorem recvDataOf_cons_chunk (c : List Nat) (tr : List Event) :
    recvDataOf (Event.recv (RecvOut.chunk c) :: tr) = c ++ recvDataOf tr := rfl

theorem recvDataOf_cons_eof (tr : List Event) :
    recvDataOf (Event.recv RecvOut.eofEnd :: tr) = recvDataOf tr := rfl

theorem recvDataOf_cons_err (m : String) (tr : List Event) :
    recvDataOf (Event.recv (RecvOut.errEnd m) :: tr) = recvDataOf tr := rfl

theorem closesOf_cons_write (c : List Nat) (tr : List Event) :
    closesOf (Event.write c :: tr) = closesOf tr := rfl

theorem closesOf_cons_close (e : Option String) (tr : List Event) :
    closesOf (Event.close e :: tr) = e :: closesOf tr := rfl

theorem closesOf_cons_recv (o : RecvOut) (tr : List Event) :
    closesOf (Event.recv o :: tr) = closesOf tr := rfl

theorem close_mem_closesOf {e : Option String} {tr : List Event}
    (h : Event.close e ∈ tr) : e ∈ closesOf tr := by
  induction tr with
  | nil => cases h
  | cons ev tr ih =>
      rcases List.mem_cons.mp h with heq | hmem
      · rw [← heq, closesOf_cons_close]
        exact List.mem_cons_self _ _
      · cases ev with
        | write c => rw [closesOf_cons_write]; exact ih hmem
        | close e2 => rw [closesOf_cons_close]; exact List.mem_cons_of_mem _ (ih hmem)
        | recv o => rw [closesOf_cons_recv]; exact ih hmem

theorem steps_append_inv {st st'' : PipeState} {tr1 tr2 : List Event}
    (h : Steps st (tr1 ++ tr2) st'') :
    ∃ stm, Steps st tr1 stm ∧ Steps stm tr2 st'' := by
  induction tr1 generalizing st with
  | nil => exact ⟨st, Steps.nil st, h⟩
  | cons ev tr1 ih =>
      cases h with
      | cons hstep hsteps =>
          obtain ⟨stm, h1, h2⟩ := ih hsteps
          exact ⟨stm, Steps.cons hstep h1, h2⟩

/-- FIFO accounting: along any trace, the bytes received so far followed by
the bytes still buffered equal the bytes initially buffered followed by the
bytes written. -/
theorem steps_accounting {st st' : PipeState} {tr : List Event}
    (h : Steps st tr st') :
    recvDataOf tr ++ st'.buffered = st.buffered ++ writtenOf tr := by
  induction h with
  | nil => simp [recvDataOf, writtenOf]
  | cons hstep hsteps ih =>
      cases hstep with
      | write c h1 h2 h3 =>
          rw [recvDataOf_cons_write, writtenOf_cons_write, ih]
          simp
      | close e h1 =>
          rw [recvDataOf_cons_close, writtenOf_cons_close, ih]
      | recv st1 out hrecv =>
          cases out with
          | chunk c =>
              obtain ⟨hb, hc, hst⟩ := receive_chunk_inv hrecv
              rw [recvDataOf_cons_chunk, writtenOf_cons_recv, List.append_assoc, ih,
                hst, hc]
              simp only [← List.append_assoc]
              rw [List.take_append_drop]
          | eofEnd =>
              obtain ⟨-, -, -, hst⟩ := receive_eofEnd_inv hrecv
              rw [recvDataOf_cons_eof, writtenOf_cons_recv, ih, hst]
          | errEnd m =>
              obtain ⟨-, -, -, hst⟩ := receive_errEnd_inv hrecv
              rw [recvDataOf_cons_err, writtenOf_cons_recv, ih, hst]

/-- Once the producer has closed, it stays closed with the same stored
error, and the trace can contain no further write or close. -/
theorem steps_closed_absorbing {st st' : PipeState} {tr : List Event}
    (h : Steps st tr st') :
    st.closed = true →
      st'.closed = true ∧ st'.closeErr = st.closeErr ∧ closesOf tr = [] ∧
      writtenOf tr = [] := by
  induction h with
  | nil => intro hc; exact ⟨hc, rfl, rfl, rfl⟩
  | cons hstep hsteps ih =>
      intro hc
      cases hstep with
      | write c h1 h2 h3 => rw [hc] at h2; cases h2
      | close e h1 => rw [hc] at h1; cases h1
      | recv st1 out hrecv =>
          have hp := receive_preserves hrecv
          obtain ⟨g1, g2, g3, g4⟩ := ih (hp.1.trans hc)
          exact ⟨g1, g2.trans hp.2, by rw [closesOf_cons_recv]; exact g3,
            by rw [writtenOf_cons_recv]; exact g4⟩

/-- From an open state, either no close happens and the state stays open
with the same stored error, or exactly one close happens and the final
state records its error. -/
theorem steps_close_trace {st st' : PipeState} {tr : List Event}
    (h : Steps st tr st') :
    st.closed = false →
      (closesOf tr = [] ∧ st'.closed = false ∧ st'.closeErr = st.closeErr) ∨
      (∃ e, closesOf tr = [e] ∧ st'.closed = true ∧ st'.closeErr = e) := by
  induction h with
  | nil => intro hc; exact Or.inl ⟨rfl, hc, rfl⟩
  | cons hstep hsteps ih =>
      intro hc
      cases hstep with
      | write c h1 h2 h3 =>
          rcases ih h2 with ⟨g1, g2, g3⟩ | ⟨e, g1, g2, g3⟩
          · exact Or.inl ⟨by rw [closesOf_cons_write]; exact g1, g2, g3⟩
          · exact Or.inr ⟨e, by rw [closesOf_cons_write]; exact g1, g2, g3⟩
      | close e h1 =>
          obtain ⟨g1, g2, g3, -⟩ := steps_closed_absorbing hsteps rfl
          exact Or.inr ⟨e, by rw [closesOf_cons_close, g3], g1, g2⟩
      | recv st1 out hrecv =>
          have hp := receive_preserves hrecv
          rcases ih (hp.1.trans hc) with ⟨g1, g2, g3⟩ | ⟨e, g1, g2, g3⟩
          · exact Or.inl ⟨by rw [closesOf_cons_recv]; exact g1, g2, g3.trans hp.2⟩
          · exact Or.inr ⟨e, by rw [closesOf_cons_recv]; exact g1, g2, g3⟩

/-- From a closed state, any error a `Receive` in the trace reports is the
stored close error. -/
theorem steps_err_stable {st st' : PipeState} {tr : List Event}
    (h : Steps st tr st') :
    st.closed = true → ∀ msg, Event.recv (RecvOut.errEnd msg) ∈ tr →
      st.closeErr = some msg := by
  induction h with
  | nil => intro _ msg hm; cases hm
  | cons hstep hsteps ih =>
      intro hc msg hm
      cases hstep with
      | write c h1 h2 h3 => rw [hc] at h2; cases h2
      | close e h1 => rw [hc] at h1; cases h1
      | recv st1 out hrecv =>
          have hp := receive_preserves hrecv
          rcases List.mem_cons.mp hm with heq | hmem
          · have hout : out = RecvOut.errEnd msg := by
              injection heq.symm
            rw [hout] at hrecv
            exact (receive_errEnd_inv hrecv).2.2.1
          · exact hp.2.symm.trans (ih (hp.1.trans hc) msg hmem)

/-- From an open state, a `Receive` can report an error only after the
producer closed with exactly that error. -/
theorem steps_err_needs_close {st st' : PipeState} {tr : List Event}
    (h : Steps st tr st') :
    st.closed = false → ∀ msg, Event.recv (RecvOut.errEnd msg) ∈ tr →
      Event.close (some msg) ∈ tr := by
  induction h with
  | nil => intro _ msg hm; cases hm
  | cons hstep hsteps ih =>
      intro hc msg hm
      cases hstep with
      | write c h1 h2 h3 =>
          rcases List.mem_cons.mp hm with heq | hmem
          · cases heq
          · exact List.mem_cons_of_mem _ (ih h2 msg hmem)
      | close e h1 =>
          rcases List.mem_cons.mp hm with heq | hmem
          · cases heq
          · have he := steps_err_stable hsteps rfl msg hmem
            have : e = some msg := he
            rw [this]
            exact List.mem_cons_self _ _
      | recv st1 out hrecv =>
          have hp := receive_preserves hrecv
          rcases List.mem_cons.mp hm with heq | hmem
          · have hout : out = RecvOut.errEnd msg := by
              injection heq.symm
            rw [hout] at hrecv
            have := (receive_errEnd_inv hrecv).2.1
            rw [hc] at this
            cases this
          · exact List.mem_cons_of_mem _ (ih (hp.1.trans hc) msg hmem)

/-- C1: along any bridge trace starting from the fresh pipe in which the
producer closes normally and the consumer has drained the buffer, the
received chunks concatenate to exactly the written bytes in write order, the
next `Receive` reports end-of-stream (and every later one — the state is
unchanged), and no `Receive` in the trace ever reported an error. -/
theorem c1_normal_close_stream (tr : List Event) (st : PipeState)
    (hs : Steps initPipe tr st) (hclose : Event.close none ∈ tr)
    (hdrained : st.buffered = []) :
    recvDataOf tr = writtenOf tr ∧
    receive st = some (RecvOut.eofEnd, st) ∧
    ∀ msg, Event.recv (RecvOut.errEnd msg) ∉ tr := by
  have hmem : (none : Option String) ∈ closesOf tr := close_mem_closesOf hclose
  rcases steps_close_trace hs rfl with ⟨hnil, -, -⟩ | ⟨e, h1, h2, h3⟩
  · rw [hnil] at hmem; cases hmem
  · have he : e = none := by
      rw [h1] at hmem
      exact (List.mem_singleton.mp hmem).symm
    subst he
    have hrecv := receive_closed_empty_none st hdrained h2 h3
    have hacc := steps_accounting hs
    rw [hdrained, List.append_nil] at hacc
    refine ⟨by simpa [initPipe] using hacc, hrecv, ?_⟩
    intro msg hmem2
    have hcl := steps_err_needs_close hs rfl msg hmem2
    have hmem3 : (some msg : Option String) ∈ closesOf tr := close_mem_closesOf hcl
    rw [h1] at hmem3
    simp at hmem3

/-- Witness for C1 on a concrete trace: one write, a normal close, one
drained read; the data balances and the next `Receive` is end-of-stream. -/
theorem c1_normal_close_stream_witness :
    recvDataOf [Event.write [7], Event.close none, Event.recv (RecvOut.chunk [7])] =
      writtenOf [Event.write [7], Event.close none, Event.recv (RecvOut.chunk [7])] ∧
    receive { buffered := [], closed := true, closeErr := none } =
      some (RecvOut.eofEnd, { buffered := [], closed := true, closeErr := none }) := by
  have hs : Steps initPipe
      [Event.write [7], Event.close none, Event.recv (RecvOut.chunk [7])]
      { buffered := [], closed := true, closeErr := none } :=
    Steps.cons (Step.write initPipe [7] (by decide) rfl (by decide))
      (Steps.cons (Step.close { buffered := [7], closed := false, closeErr := none } none rfl)
        (Steps.cons (Step.recv { buffered := [7], closed := true, closeErr := none }
            { buffered := [], closed := true, closeErr := none }
            (RecvOut.chunk [7]) (by decide))
          (Steps.nil _)))
  have h := c1_normal_close_stream _ _ hs (by decide) rfl
  exact ⟨h.1, h.2.1⟩

/-- C2: on any bridge trace from the fresh pipe in which some `Receive`
reports an error, every byte written before that point had already been
returned (the data received in the prefix equals the data written in it, and
the buffer is empty at the moment the error is observed — the stored error
is never observed while unread bytes remain), and nothing is written
afterwards. -/
theorem c2_error_after_drain (pre post : List Event) (st : PipeState) (msg : String)
    (hs : Steps initPipe (pre ++ Event.recv (RecvOut.errEnd msg) :: post) st) :
    recvDataOf pre = writtenOf pre ∧ writtenOf post = [] ∧
    ∃ mid, Steps initPipe pre mid ∧ mid.buffered = [] ∧ mid.closeErr = some msg := by
  obtain ⟨mid, h1, h2⟩ := steps_append_inv hs
  cases h2 with
  | cons hstep hsteps =>
      cases hstep with
      | recv st1 out0 hrecv =>
          obtain ⟨hb, hcl, he, hst⟩ := receive_errEnd_inv hrecv
          have hacc := steps_accounting h1
          rw [hb, List.append_nil] at hacc
          refine ⟨by simpa [initPipe] using hacc, ?_, mid, h1, hb, he⟩
          have habs := steps_closed_absorbing hsteps (by rw [hst]; exact hcl)
          exact habs.2.2.2

/-- Witness for C2 on a concrete trace: a write, a close with an error, the
draining read, then the error read; all data preceded the error and nothing
was written after it. -/
theorem c2_error_after_drain_witness :
    recvDataOf [Event.write [5], Event.close (some "boom"),
        Event.recv (RecvOut.chunk [5])] =
      writtenOf [Event.write [5], Event.close (some "boom"),
        Event.recv (RecvOut.chunk [5])] ∧
    writtenOf ([] : List Event) = [] := by
  have hs : Steps initPipe
      ([Event.write [5], Event.close (some "boom"), Event.recv (RecvOut.chunk [5])] ++
        Event.recv (RecvOut.errEnd "boom") :: [])
      { buffered := [], closed := true, closeErr := some "boom" } :=
    Steps.cons (Step.write initPipe [5] (by decide) rfl (by decide))
      (Steps.cons
        (Step.close { buffered := [5], closed := false, closeErr := none } (some "boom") rfl)
        (Steps.cons (Step.recv { buffered := [5], closed := true, closeErr := some "boom" }
            { buffered := [], closed := true, closeErr := some "boom" }
            (RecvOut.chunk [5]) (by decide))
          (Steps.cons (Step.recv { buffered := [], closed := true, closeErr := some "boom" }
              { buffered := [], closed := true, closeErr := some "boom" }
              (RecvOut.errEnd "boom") (by decide))
            (Steps.nil _))))
  have h := c2_error_after_drain _ [] _ "boom" hs
  exact ⟨h.1, h.2.1⟩

/-- Once a `Receive` has reported a terminal outcome the bridge state is a
fixed point: every later step can only be a `Receive` reporting the same
outcome, and the state never changes. -/
theorem steps_terminal_fixed {st st' : PipeState} {tr : List Event} {out : RecvOut}
    (h : Steps st tr st') :
    st.buffered = [] → st.closed = true → receive st = some (out, st) →
      st' = st ∧ ∀ ev ∈ tr, ev = Event.recv out := by
  induction h with
  | nil => intro _ _ _; exact ⟨rfl, fun ev hev => absurd hev (List.not_mem_nil ev)⟩
  | cons hstep hsteps ih =>
      intro hb hc hr
      cases hstep with
      | write c h1 h2 h3 => rw [hc] at h2; cases h2
      | close e h1 => rw [hc] at h1; cases h1
      | recv st1 o hrecv =>
          rw [hr] at hrecv
          simp only [Option.some.injEq, Prod.mk.injEq] at hrecv
          obtain ⟨ho, hst1⟩ := hrecv
          subst hst1
          subst ho
          obtain ⟨g1, g2⟩ := ih hb hc hr
          refine ⟨g1, fun ev hev => ?_⟩
          rcases List.mem_cons.mp hev with hh | hh
          · rw [hh]
          · exact g2 ev hh

/-- C8: once `Receive` has reported end-of-stream or an error, every further
interaction with the handle is a `Receive` reporting exactly the same
terminal outcome; the state never changes and no data or different terminal
signal can ever be returned again. -/
theorem c8_no_resurrection (st st2 st' : PipeState) (out : RecvOut) (tr : List Event)
    (hterm : receive st = some (out, st2))
    (ht : out = RecvOut.eofEnd ∨ ∃ msg, out = RecvOut.errEnd msg)
    (hs : Steps st2 tr st') :
    st' = st2 ∧ (∀ ev ∈ tr, ev = Event.recv out) ∧ receive st' = some (out, st') := by
  have hfacts : st2 = st ∧ st.buffered = [] ∧ st.closed = true := by
    rcases ht with he | ⟨msg, he⟩
    · subst he
      obtain ⟨a, b, -, d⟩ := receive_eofEnd_inv hterm
      exact ⟨d, a, b⟩
    · subst he
      obtain ⟨a, b, -, d⟩ := receive_errEnd_inv hterm
      exact ⟨d, a, b⟩
  obtain ⟨h2st, hb, hc⟩ := hfacts
  subst h2st
  obtain ⟨g1, g2⟩ := steps_terminal_fixed hs hb hc hterm
  refine ⟨g1, g2, ?_⟩
  rw [g1]
  exact hterm

/-- Witness for C8: after an end-of-stream report, a further `Receive`
reports end-of-stream again on the unchanged state. -/
theorem c8_no_resurrection_witness :
    ({ buffered := [], closed := true, closeErr := none } : PipeState) =
      { buffered := [], closed := true, closeErr := none } ∧
    receive { buffered := [], closed := true, closeErr := none } =
      some (RecvOut.eofEnd, { buffered := [], closed := true, closeErr := none }) := by
  have h := c8_no_resurrection
    { buffered := [], closed := true, closeErr := none }
    { buffered := [], closed := true, closeErr := none }
    { buffered := [], closed := true, closeErr := none }
    RecvOut.eofEnd [Event.recv RecvOut.eofEnd] (by decide) (Or.inl rfl)
    (Steps.cons (Step.recv
        { buffered := [], closed := true, closeErr := none }
        { buffered := [], closed := true, closeErr := none }
        RecvOut.eofEnd (by decide))
      (Steps.nil _))
  exact ⟨h.1, h.2.2⟩

theorem steps_capacity {st st' : PipeState} {tr : List Event}
    (h : Steps st tr st') :
    st.buffered.length ≤ pipeCapacity → st'.buffered.length ≤ pipeCapacity := by
  induction h with
  | nil => exact id
  | cons hstep hsteps ih =>
      intro hb
      apply ih
      cases hstep with
      | write c h1 h2 h3 => simpa using h3
      | close e h1 => exact hb
      | recv st1 out hrecv => exact le_trans (receive_buffered_le hrecv) hb

/-- C9 (spec-modelled backpressure): the bridge never holds more than 4096
unread bytes; a write that would push the unread total past the bound is not
enabled (the producer blocks); a draining `Receive` frees exactly the space
of the chunk it returns; and a fitting write is enabled again on the open
pipe — together, a fast producer can never buffer more than the bound. -/
theorem c9_backpressure :
    (∀ (tr : List Event) (st : PipeState),
      Steps initPipe tr st → st.buffered.length ≤ pipeCapacity) ∧
    (∀ (st : PipeState) (c : List Nat) (st' : PipeState),
      pipeCapacity < st.buffered.length + c.length → ¬ Step st (Event.write c) st') ∧
    (∀ (st : PipeState) (c : List Nat) (st' : PipeState),
      Step st (Event.recv (RecvOut.chunk c)) st' →
        st'.buffered.length + c.length = st.buffered.length) ∧
    (∀ (st : PipeState) (c : List Nat), c ≠ [] → st.closed = false →
      st.buffered.length + c.length ≤ pipeCapacity →
      Step st (Event.write c) { st with buffered := st.buffered ++ c }) := by
  refine ⟨?_, ?_, ?_, ?_⟩
  · intro tr st h
    exact steps_capacity h (by simp [initPipe])
  · intro st c st' hgt hstep
    cases hstep with
    | write c0 h1 h2 h3 => exact absurd h3 (Nat.not_le_of_lt hgt)
  · intro st c st' hstep
    cases hstep with
    | recv st10 out0 hrecv =>
        obtain ⟨hb, hc, hst⟩ := receive_chunk_inv hrecv
        have hlen := congrArg List.length (List.take_append_drop recvBufSize st.buffered)
        rw [List.length_append] at hlen
        rw [hst, hc]
        dsimp only
        omega
  · intro st c h1 h2 h3
    exact Step.write st c h1 h2 h3

/-- Witness for C9: the fresh bridge is within the bound. -/
theorem c9_backpressure_witness : initPipe.buffered.length ≤ pipeCapacity :=
  c9_backpressure.1 [] initPipe (Steps.nil initPipe)

end Groq
